import Mathlib

/-!
Verification of the TODOtoNOTION reconciliation engine.

The development shallowly embeds the JavaScript sources:
  - todoParser.js   (parseTodos, scanDocumentsForTodos)
  - utils.js        (getTodoRegex, generateRandomId - modelled as an oracle)
  - todoSync.js     (injectTodoIds, reconcileNotionToCode, syncTodosOnSave cache)
  - notionTodo.js   (syncTodos, createTodo, updateTodo, deleteTodo)
  - notionDatabase.js (fetchNotionState)

Lines of text are embedded as List Char; JavaScript strings used only as
opaque values (ids, uris, field contents) are embedded as String.
-/

/-! ## Character classes used by the regexes in the sources -/

/-- Character class of the id token regexes.  Both todoParser.js line 17
( the pattern matching a bracketed id annotation, flag i ) and
todoSync.js line 209 use the class of lowercase letters, digits and
hyphen under the case-insensitive flag, which for ASCII input admits
letters of either case, digits and the hyphen. -/
def isIdChar (c : Char) : Bool :=
  ('a' ≤ c && c ≤ 'z') || ('A' ≤ c && c ≤ 'Z') || ('0' ≤ c && c ≤ '9') || c == '-'

/-- JavaScript whitespace as used by the regexes and String.trimEnd,
restricted to the ASCII whitespace characters. -/
def isWsJs (c : Char) : Bool :=
  c == ' ' || c == '\t' || c == '\n' || c == '\r' || c == '\x0b' || c == '\x0c'

/-! ## Id annotation detection (todoParser.js lines 17 and 26)

The id regex of parseTodos searches the whole line for the first
occurrence of an opening bracket, the letters i and d in either case, a
colon, a nonempty run of id characters, and a closing bracket.  It is not
anchored to the end of the line. -/

/-- One attempt of the id regex at the current position: the list starts
with an opening bracket, i and d in either case, a colon, then a nonempty
maximal run of id characters followed by a closing bracket.  Backtracking
inside the character class cannot help because the class excludes the
closing bracket, so the token is exactly the maximal run. -/
def matchIdAt (l : List Char) : Option (List Char) :=
  if l.head? = some '[' ∧ (l.tail.head?.map Char.toLower) = some 'i'
      ∧ (l.tail.tail.head?.map Char.toLower) = some 'd'
      ∧ l.tail.tail.tail.head? = some ':'
      ∧ ((l.tail.tail.tail.tail).dropWhile isIdChar).head? = some ']'
      ∧ (l.tail.tail.tail.tail).takeWhile isIdChar ≠ []
  then some ((l.tail.tail.tail.tail).takeWhile isIdChar) else none

/-- First match of the id regex in the line, scanning left to right
(JavaScript String.match with a non-global regex). -/
def findId : List Char → Option (List Char)
  | [] => none
  | c :: rest =>
    match matchIdAt (c :: rest) with
    | some tok => some tok
    | none => findId rest

/-! ## The todo tag regex (utils.js getTodoRegex, flag i)

Two slashes, optional whitespace, then one of the five tag keywords,
case-insensitively.  Since no tag keyword starts with a whitespace
character, dropping the maximal whitespace run is equivalent to the
backtracking search of the regex engine. -/

/-- Case-insensitive prefix test; the pattern is given in lowercase. -/
def startsCI : List Char → List Char → Bool
  | [], _ => true
  | _ :: _, [] => false
  | p :: ps, c :: cs => c.toLower == p && startsCI ps cs

def anyTagAt (l : List Char) : Bool :=
  startsCI ['t','o','d','o'] l || startsCI ['f','i','x','m','e'] l ||
  startsCI ['b','u','g'] l || startsCI ['h','a','c','k'] l || startsCI ['x','x','x'] l

def todoMatchAt (l : List Char) : Bool :=
  match l with
  | '/' :: '/' :: rest => anyTagAt (rest.dropWhile isWsJs)
  | _ => false

/-- Whether the todo tag regex matches anywhere in the text. -/
def hasTodoMatch : List Char → Bool
  | [] => false
  | c :: rest => todoMatchAt (c :: rest) || hasTodoMatch rest

/-! ## The stamper (todoSync.js injectTodoIds, lines 202-231)

For each parsed todo the stamper removes an existing trailing id
annotation (regex of line 209: optional whitespace, the bracketed
annotation, anchored at end of line, flag i), trims trailing whitespace
and appends a space and the bracketed id of the todo.  An edit is
scheduled only when the resulting line differs from the current line. -/

def trimEnd (l : List Char) : List Char :=
  (l.reverse.dropWhile isWsJs).reverse

/-- The trailing-annotation regex applied to the reversed line: a closing
bracket, a nonempty reversed token of id characters, colon, d, i in
either case, an opening bracket, then the whitespace run that the
leading whitespace-star of the regex absorbs (leftmost match).  Returns
the reversed remaining prefix. -/
def stripTrailingIdRev (r : List Char) : Option (List Char) :=
  if r.head? = some ']' ∧ r.tail.takeWhile isIdChar ≠ []
      ∧ (r.tail.dropWhile isIdChar).head? = some ':'
      ∧ ((r.tail.dropWhile isIdChar).tail.head?.map Char.toLower) = some 'd'
      ∧ ((r.tail.dropWhile isIdChar).tail.tail.head?.map Char.toLower) = some 'i'
      ∧ (r.tail.dropWhile isIdChar).tail.tail.tail.head? = some '['
  then some ((r.tail.dropWhile isIdChar).tail.tail.tail.tail.dropWhile isWsJs) else none

/-- String.replace with the trailing-annotation regex and the empty
replacement: the line unchanged when there is no match. -/
def stripTrailingId (l : List Char) : List Char :=
  match stripTrailingIdRev l.reverse with
  | some r => r.reverse
  | none => l

/-- todoSync.js line 209: newLineText. -/
def injectLine (tid : List Char) (l : List Char) : List Char :=
  trimEnd (stripTrailingId l) ++ (' ' :: '[' :: 'i' :: 'd' :: ':' :: (tid ++ [']']))

/-- parseTodos lines 40-46: the embedded id if the id regex matched,
otherwise a freshly generated id (generateRandomId, passed as a value). -/
def extractOrGen (g : List Char) (l : List Char) : List Char :=
  match findId l with
  | some t => t
  | none => g

structure StampResult where
  newLine : List Char
  edited : Bool
deriving DecidableEq, Repr

/-- One pass of the stamper over a single line: extract the id the way
parseTodos does, then rewrite the line the way injectTodoIds does.  The
edited flag records whether injectTodoIds schedules a buffer edit for
the line (todoSync.js line 210). -/
def stampLine (g : List Char) (l : List Char) : StampResult :=
  let nl := injectLine (extractOrGen g l) l
  { newLine := nl, edited := nl != l }

/-- Characters that can play no role inside a match of the id regex other
than, possibly, starting a fresh match. -/
def inertChar (c : Char) : Bool :=
  !isIdChar c && !(c.toLower == 'i') && !(c.toLower == 'd') && !(c == ':') && !(c == ']')

/-! ## The extractor (todoParser.js parseTodos, lines 14-65) -/

/-- Per-document record cap of parseTodos (todoParser.js line 20) and of
the scan loop (line 83). -/
def maxTodos : Nat := 50

structure ParsedTodo where
  line : Nat
  lineNumber : Nat
  id : List Char
deriving DecidableEq, Repr

/-- The parseTodos loop (todoParser.js lines 21-59): visit lines in
order while fewer than maxTodos records have been collected; a matching
line yields a record carrying its embedded id or a generated one
(generateRandomId is passed in as an oracle indexed by line).  The text,
type and status fields derived on lines 27-36 are not needed by any
claim about the extractor and are omitted from the record. -/
def parseTodosAux (genId : Nat → List Char) :
    List (List Char) → Nat → Nat → List ParsedTodo
  | [], _, _ => []
  | l :: rest, i, count =>
    if maxTodos ≤ count then []
    else if hasTodoMatch l then
      { line := i, lineNumber := i + 1,
        id := match findId l with | some tok => tok | none => genId i }
        :: parseTodosAux genId rest (i + 1) (count + 1)
    else parseTodosAux genId rest (i + 1) count

def parseTodos (genId : Nat → List Char) (lines : List (List Char)) : List ParsedTodo :=
  parseTodosAux genId lines 0 0

/-! ## The scanner (todoParser.js scanDocumentsForTodos, lines 73-113)

The todo regex is created without the global flag, so the condition of
the while loop on line 84 re-executes the regex from the start of the
text and finds the same first match every iteration; the loop exits only
through its count bound, which is maxTodos multiplied by the document
index plus one, applied to the cumulative count across documents.  After
the loop, line 108 reads the block-scoped maxTodos constant outside its
scope, which raises a ReferenceError at runtime; the list built up to
that point is modelled here.  Records are reduced to the uri of their
document: only their number matters to the claims. -/

def scanFillAux : Nat → String → List String → List String
  | 0, _, acc => acc
  | n + 1, item, acc => scanFillAux n item (acc ++ [item])

/-- The while loop of lines 84-104 for one document with a matching
text: push the first-match record until the cumulative count reaches the
bound. -/
def scanFill (bound : Nat) (item : String) (acc : List String) : List String :=
  scanFillAux (bound - acc.length) item acc

structure ScanDoc where
  uri : String
  scheme : String
  text : List Char
deriving DecidableEq, Repr

def scanDocumentsForTodos (docs : List ScanDoc) : List String :=
  docs.enum.foldl
    (fun acc p =>
      if p.2.scheme = "file" ∨ p.2.scheme = "untitled" then
        if hasTodoMatch p.2.text then scanFill (maxTodos * (p.1 + 1)) p.2.uri acc
        else acc
      else acc) []

/-! ## Remote snapshot (notionDatabase.js fetchNotionState, lines 16-97) -/

structure Credentials where
  token : String
  databaseId : String
deriving DecidableEq, Repr

/-- One page of the query response, reduced to the property shapes the
mapping of lines 33-71 inspects. -/
structure RawPage where
  id : String
  nameTitle : List String
  todoIdRichText : List String
  filePathRichText : List String
  lineNumberProp : Option Int
  typeSelect : Option String
  statusSelect : Option String
deriving DecidableEq, Repr

structure NotionTask where
  id : String
  customId : String
  text : String
  filePath : String
  lineNumber : Option Int
  type : String
  status : String
deriving DecidableEq, Repr

/-- notionDatabase.js lines 33-71: each field falls back to its default
when the property is missing or empty. -/
def pageToTask (p : RawPage) : NotionTask :=
  { id := p.id
    customId := p.todoIdRichText.headD ""
    text := p.nameTitle.headD "Untitled Task"
    filePath := p.filePathRichText.headD ""
    lineNumber := p.lineNumberProp
    type := p.typeSelect.getD ""
    status := p.statusSelect.getD "" }

/-- notionDatabase.js fetchNotionState: missing credentials return an
empty list (lines 19-23); any failure of the query is caught and an
empty list returned (lines 76-96); a successful query maps the pages
(lines 33-75). -/
def fetchNotionState (creds : Credentials) (query : Except String (List RawPage)) :
    List NotionTask :=
  if creds.token = "" ∨ creds.databaseId = "" then []
  else
    match query with
    | .error _ => []
    | .ok pages => pages.map pageToTask

/-! ## The push pass (notionTodo.js syncTodos, lines 316-434) -/

/-- A todo as handed to syncTodos by syncTodosOnSave; a null id is
modelled by the empty string (both are falsy at line 347). -/
structure SyncTodo where
  id : String
  text : String
  type : String
  status : String
  filePath : String
  lineNumber : Int
deriving DecidableEq, Repr

/-- notionTodo.js lines 336-343: the forEach builds customIdToPageId
with later tasks overwriting earlier ones; a task with a falsy customId
is not indexed. -/
def customIdToPageId (tasks : List NotionTask) (cid : String) : Option String :=
  tasks.foldl (fun acc t => if t.customId ≠ "" ∧ t.customId = cid then some t.id else acc) none

/-- notionTodo.js line 339. -/
def notionTaskByPageId (tasks : List NotionTask) (pid : String) : Option NotionTask :=
  tasks.foldl (fun acc t => if t.id = pid then some t else acc) none

/-- JavaScript truthiness of a string-valued object lookup: present and
not the empty string. -/
def jsTruthy (o : Option String) : Bool :=
  match o with
  | some s => s != ""
  | none => false

/-- notionTodo.js lines 362-368: the field comparison deciding an
update; the remote line number is absent when the property is missing,
and strict inequality against a number is then true. -/
def needsUpdate (task : NotionTask) (todo : SyncTodo) : Bool :=
  task.text != todo.text || task.filePath != todo.filePath
    || task.lineNumber != some todo.lineNumber || task.type != todo.type
    || task.status != todo.status

inductive PushClass
  | skip
  | create
  | update
  | noop
deriving DecidableEq, Repr

/-- The remote mutation calls of the push pass.  The archive target is
polymorphic: syncTodos passes whatever value the cache stores for the
identifier (notionTodo.js line 409). -/
inductive RemoteCall (α : Type)
  | createPage (todo : SyncTodo)
  | updatePage (pageId : String) (todo : SyncTodo)
  | archivePage (target : α)
deriving DecidableEq, Repr

/-- notionTodo.js lines 346-400 for one todo: its classification and the
remote call the loop issues for it (issued whether or not it succeeds).
A todo with a falsy id is skipped with an error message (lines 347-351).
The inner branch where the indexed page id has no task entry cannot
occur - every indexed page id is the id of some fetched task - and is
mapped to no-op. -/
def processTodo {α : Type} (tasks : List NotionTask) (todo : SyncTodo) :
    PushClass × Option (RemoteCall α) :=
  if todo.id = "" then (.skip, none)
  else
    match customIdToPageId tasks todo.id with
    | some pid =>
      if pid ≠ "" then
        match notionTaskByPageId tasks pid with
        | some task =>
          if needsUpdate task todo then (.update, some (.updatePage pid todo))
          else (.noop, none)
        | none => (.noop, none)
      else (.create, some (.createPage todo))
    | none => (.create, some (.createPage todo))

def classifyTodo (tasks : List NotionTask) (todo : SyncTodo) : PushClass :=
  (processTodo (α := String) tasks todo).1

/-- notionTodo.js lines 402-414: a cached id is marked for deletion
precisely when the remote-by-identifier index has no truthy entry for it
(line 407, which tests customIdToPageId, not the current todos); the
value the cache stores for the id is pushed as the deletion target
(line 409).  The guard of line 403 skips the block for an empty cache.
Keys of a JavaScript object are unique; the cache association lists used
here are keyed uniquely as well. -/
def classifyDeleted {α : Type} (tasks : List NotionTask) (cached : List (String × α)) :
    List α :=
  if 0 < cached.length then
    cached.filterMap (fun p => if jsTruthy (customIdToPageId tasks p.1) then none else some p.2)
  else []

/-- The created and updated result lists of the loop of lines 346-400,
given per-record success of the createTodo and updateTodo calls: a
successful call pushes the todo onto its list, a failed call only
logs. -/
def processTodos (tasks : List NotionTask) (createOk updateOk : SyncTodo → Bool)
    (todos : List SyncTodo) : List SyncTodo × List SyncTodo :=
  todos.foldl
    (fun acc todo =>
      match classifyTodo tasks todo with
      | .update => if updateOk todo then (acc.1, acc.2 ++ [todo]) else acc
      | .create => if createOk todo then (acc.1 ++ [todo], acc.2) else acc
      | _ => acc)
    ([], [])

structure SyncResult (α : Type) where
  created : List SyncTodo
  updated : List SyncTodo
  deleted : List α
deriving DecidableEq, Repr

/-- The reconciliation part of syncTodos, after the fetch.  The deleted
list is filled at classification time (line 410) and the execution loop
of lines 417-424 never removes entries from it, so it does not depend on
the outcomes of the archive calls. -/
def syncTodosWithTasks {α : Type} (tasks : List NotionTask) (todos : List SyncTodo)
    (cached : List (String × α)) (createOk updateOk : SyncTodo → Bool) : SyncResult α :=
  { created := (processTodos tasks createOk updateOk todos).1
    updated := (processTodos tasks createOk updateOk todos).2
    deleted := classifyDeleted tasks cached }

/-- notionTodo.js syncTodos lines 316-434: credentials guard (lines
318-323), fetch (line 333), then the reconciliation. -/
def syncTodos {α : Type} (creds : Credentials) (query : Except String (List RawPage))
    (todos : List SyncTodo) (cached : List (String × α))
    (createOk updateOk : SyncTodo → Bool) : SyncResult α :=
  if creds.token = "" ∨ creds.databaseId = "" then { created := [], updated := [], deleted := [] }
  else syncTodosWithTasks (fetchNotionState creds query) todos cached createOk updateOk

/-- The remote mutation calls the push pass attempts: one create or
update per classified todo (lines 346-400), then one archive per
classified deletion (lines 417-424).  The list does not depend on
per-call success. -/
def pushCalls {α : Type} (tasks : List NotionTask) (todos : List SyncTodo)
    (cached : List (String × α)) : List (RemoteCall α) :=
  todos.filterMap (fun t => (processTodo tasks t).2)
    ++ (classifyDeleted tasks cached).map RemoteCall.archivePage

/-- pushCalls through the credentials guard and the fetch, mirroring
syncTodos. -/
def syncPushCalls {α : Type} (creds : Credentials) (query : Except String (List RawPage))
    (todos : List SyncTodo) (cached : List (String × α)) : List (RemoteCall α) :=
  if creds.token = "" ∨ creds.databaseId = "" then []
  else pushCalls (fetchNotionState creds query) todos cached

/-- notionTodo.js deleteTodo lines 269-304: the call made for a deletion
target is pages.update with the archived flag set to true; the module
contains no hard-delete call. -/
structure PageUpdateRequest (α : Type) where
  pageId : α
  archived : Bool
deriving DecidableEq, Repr

def deleteTodoRequest {α : Type} (todoId : α) : PageUpdateRequest α :=
  { pageId := todoId, archived := true }

/-- todoSync.js lines 172-177: after a sync the per-file cache is
replaced by a map from each current todo id to the todo record itself -
not to a Notion page id.  Ids are unique within one parse pass; a
duplicate would overwrite in the JavaScript object. -/
def cacheAfterSave (todos : List SyncTodo) : List (String × SyncTodo) :=
  todos.filterMap (fun t => if t.id ≠ "" then some (t.id, t) else none)

/-! ## The pull pass (todoSync.js reconcileNotionToCode, lines 63-96) -/

structure CodeTodo where
  text : String
  line : Nat
  column : Nat
  id : String
  uri : String
deriving DecidableEq, Repr

/-- JavaScript object lookup on an association list with unique keys. -/
def jsGet {α : Type} (m : List (String × α)) (k : String) : Option α :=
  (m.find? (fun p => p.1 == k)).map Prod.snd

inductive LocalOp
  | replaceLine (uri : String) (line : Nat) (newText : String)
  | clearLine (uri : String) (line : Nat)
deriving DecidableEq, Repr

def LocalOp.opUri : LocalOp → String
  | .replaceLine u _ _ => u
  | .clearLine u _ => u

def LocalOp.opLine : LocalOp → Nat
  | .replaceLine _ n _ => n
  | .clearLine _ n => n

/-- One iteration of reconcileNotionToCode (lines 68-85): an archived
task whose id has a code todo deletes that line; a live task whose id
has a code todo with a truthy and different text rewrites that line; in
every other case nothing happens. -/
def reconcileStep (codeMap : List (String × CodeTodo)) (task : NotionTask) (key : String) :
    Option LocalOp :=
  match jsGet codeMap key with
  | some ct =>
    if task.status = "Archived" then some (.clearLine ct.uri ct.line)
    else if task.text ≠ "" ∧ task.text ≠ ct.text then
      some (.replaceLine ct.uri ct.line task.text)
    else none
  | none => none

def reconcileNotionToCode (notionMap : List (String × NotionTask))
    (codeMap : List (String × CodeTodo)) : List LocalOp :=
  notionMap.filterMap (fun p =>
    match jsGet notionMap p.1 with
    | some task => reconcileStep codeMap task p.1
    | none => none)

/-- todoSync.js updateTodoInCode lines 103-116 and deleteTodoFromCode
lines 122-135 applied to a buffer: replace rewrites the line range in
place; delete removes the text of the line range, which does not include
the line break, leaving an empty line behind. -/
def applyLocalOp (buf : List String) : LocalOp → List String
  | .replaceLine _ n s => buf.set n s
  | .clearLine _ n => buf.set n ""

/-- Lowercase hexadecimal digits and hyphens: the token alphabet the
spec asserts for embedded identifiers. -/
def isLowerHexChar (c : Char) : Bool :=
  ('a' ≤ c && c ≤ 'f') || ('0' ≤ c && c ≤ '9') || c == '-'

/-- The detection property the spec asserts for the extractor, stated
for refutation: an id is detected only as a trailing annotation anchored
at end of line whose token uses only lowercase hex digits and hyphens. -/
def idDetectionAnchoredLowerHex : Prop :=
  ∀ (l t : List Char), findId l = some t →
    (∃ pre, l = pre ++ ('[' :: 'i' :: 'd' :: ':' :: (t ++ [']'])))
    ∧ ∀ c ∈ t, isLowerHexChar c = true

/-- The partial-failure property the spec asserts for the deleted result
list, stated for refutation: a record whose archive call fails is
omitted from the deleted list, whatever the per-call outcomes are. -/
def deletedOmitsFailedArchives : Prop :=
  ∀ (tasks : List NotionTask) (todos : List SyncTodo) (cached : List (String × String))
    (cOk uOk : SyncTodo → Bool) (deleteOk : String → Bool) (v : String),
    v ∈ (syncTodosWithTasks tasks todos cached cOk uOk).deleted → deleteOk v = true

/-! ## Concrete sample values for witnesses and failing inputs -/

def credsOk : Credentials := { token := "tok", databaseId := "db" }

def taskAbc : NotionTask :=
  { id := "p1", customId := "abc", text := "txt", filePath := "f",
    lineNumber := some 1, type := "TODO", status := "Not started" }

def todoAbc : SyncTodo :=
  { id := "abc", text := "txt", type := "TODO", status := "Not started",
    filePath := "f", lineNumber := 1 }

def todoAaa : SyncTodo :=
  { id := "aaa", text := "new todo", type := "TODO", status := "Not started",
    filePath := "f", lineNumber := 2 }

def pageXyz : RawPage :=
  { id := "page-1", nameTitle := ["remote text"], todoIdRichText := ["xyz-999"],
    filePathRichText := ["f"], lineNumberProp := none, typeSelect := some "TODO",
    statusSelect := some "Not started" }

def taskArchived : NotionTask :=
  { id := "p9", customId := "abc", text := "done", filePath := "",
    lineNumber := none, type := "TODO", status := "Archived" }

def codeTodoAbc : CodeTodo :=
  { text := "// TODO: x [id:abc]", line := 4, column := 0, id := "abc", uri := "file:a" }

example : findId "// TODO: fix it [id:abc-12]".toList = some "abc-12".toList := by decide
example : findId "// TODO: fix it".toList = none := by decide
example : findId "// TODO: x [id:ZZ] tail".toList = some "ZZ".toList := by decide
example : stampLine "g1".toList "// TODO: fix".toList =
    { newLine := "// TODO: fix [id:g1]".toList, edited := true } := by decide
example : stampLine "g1".toList "// TODO: fix [id:abc]".toList =
    { newLine := "// TODO: fix [id:abc]".toList, edited := false } := by decide
example : hasTodoMatch "var x = 1; // fixme later".toList = true := by decide
example : hasTodoMatch "var x = 1;".toList = false := by decide

/-! ## Supporting lemmas about the regex models -/

theorem head?_dropWhile_false {p : Char → Bool} {l : List Char} {c : Char}
    (h : (l.dropWhile p).head? = some c) : p c = false := by
  induction l with
  | nil => simp [List.dropWhile] at h
  | cons a as ih =>
    rw [List.dropWhile_cons] at h
    by_cases ha : p a
    · rw [if_pos ha] at h; exact ih h
    · rw [if_neg ha] at h
      simp only [List.head?_cons, Option.some.injEq] at h
      subst h
      exact Bool.eq_false_iff.mpr ha

theorem dropWhile_eq_self_of_head {p : Char → Bool} {l : List Char}
    (h : ∀ c, l.head? = some c → p c = false) : l.dropWhile p = l := by
  cases l with
  | nil => rfl
  | cons a as =>
    have := h a rfl
    rw [List.dropWhile_cons, if_neg (by simp [this])]

theorem takeWhile_append_stop {p : Char → Bool} {l m : List Char}
    (h : l.dropWhile p ≠ []) : (l ++ m).takeWhile p = l.takeWhile p := by
  induction l with
  | nil => simp [List.dropWhile] at h
  | cons a as ih =>
    by_cases ha : p a
    · rw [List.dropWhile_cons, if_pos ha] at h
      simp only [List.cons_append, List.takeWhile_cons, if_pos ha]
      rw [ih h]
    · simp [List.takeWhile_cons, ha]

theorem dropWhile_append_stop {p : Char → Bool} {l m : List Char}
    (h : l.dropWhile p ≠ []) : (l ++ m).dropWhile p = l.dropWhile p ++ m := by
  induction l with
  | nil => simp [List.dropWhile] at h
  | cons a as ih =>
    by_cases ha : p a
    · rw [List.dropWhile_cons, if_pos ha] at h
      simp only [List.cons_append, List.dropWhile_cons, if_pos ha]
      exact ih h
    · simp [List.dropWhile_cons, ha]

theorem dropWhile_idem (p : Char → Bool) (l : List Char) :
    (l.dropWhile p).dropWhile p = l.dropWhile p :=
  dropWhile_eq_self_of_head (fun _ hc => head?_dropWhile_false hc)

theorem inertChar_spec {b0 : Char} (hb : inertChar b0 = true) :
    isIdChar b0 = false ∧ b0.toLower ≠ 'i' ∧ b0.toLower ≠ 'd' ∧ b0 ≠ ':' ∧ b0 ≠ ']' := by
  simp only [inertChar, Bool.and_eq_true, Bool.not_eq_true', beq_eq_false_iff_ne, ne_eq] at hb
  exact ⟨hb.1.1.1.1, hb.1.1.1.2, hb.1.1.2, hb.1.2, hb.2⟩

/-- Appending text whose first character can play no structural role in
the id regex does not change whether the regex matches at the current
position inside the original text. -/
theorem matchIdAt_append {s : List Char} (hs : s ≠ []) {b0 : Char} (b : List Char)
    (hb : inertChar b0 = true) : matchIdAt (s ++ b0 :: b) = matchIdAt s := by
  obtain ⟨hid, hi, hd, hcol, hbr⟩ := inertChar_spec hb
  rcases s with _ | ⟨a, _ | ⟨c1, _ | ⟨c2, _ | ⟨c3, rest⟩⟩⟩⟩
  · exact absurd rfl hs
  · have hL : matchIdAt ([a] ++ b0 :: b) = none := by
      unfold matchIdAt
      rw [if_neg]
      rintro ⟨-, h2, -⟩
      simp only [List.cons_append, List.nil_append, List.tail_cons, List.head?_cons,
        Option.map_some', Option.some.injEq] at h2
      exact hi h2
    have hR : matchIdAt [a] = none := by
      unfold matchIdAt
      rw [if_neg]
      rintro ⟨-, h2, -⟩
      simp at h2
    rw [hL, hR]
  · have hL : matchIdAt ([a, c1] ++ b0 :: b) = none := by
      unfold matchIdAt
      rw [if_neg]
      rintro ⟨-, -, h3, -⟩
      simp only [List.cons_append, List.nil_append, List.tail_cons, List.head?_cons,
        Option.map_some', Option.some.injEq] at h3
      exact hd h3
    have hR : matchIdAt [a, c1] = none := by
      unfold matchIdAt
      rw [if_neg]
      rintro ⟨-, -, h3, -⟩
      simp at h3
    rw [hL, hR]
  · have hL : matchIdAt ([a, c1, c2] ++ b0 :: b) = none := by
      unfold matchIdAt
      rw [if_neg]
      rintro ⟨-, -, -, h4, -⟩
      simp only [List.cons_append, List.nil_append, List.tail_cons, List.head?_cons,
        Option.some.injEq] at h4
      exact hcol h4
    have hR : matchIdAt [a, c1, c2] = none := by
      unfold matchIdAt
      rw [if_neg]
      rintro ⟨-, -, -, h4, -⟩
      simp at h4
    rw [hL, hR]
  · show matchIdAt (a :: c1 :: c2 :: c3 :: (rest ++ b0 :: b)) = _
    unfold matchIdAt
    simp only [List.tail_cons, List.head?_cons]
    rcases hdw : rest.dropWhile isIdChar with _ | ⟨d, ds⟩
    · have hall : ∀ c ∈ rest, isIdChar c := List.dropWhile_eq_nil_iff.mp hdw
      have h1 : (rest ++ b0 :: b).dropWhile isIdChar = b0 :: b := by
        rw [List.dropWhile_append_of_pos hall]
        exact List.dropWhile_cons_of_neg (by simp [hid])
      rw [h1]
      rw [if_neg, if_neg]
      · rintro ⟨-, -, -, -, h5, -⟩
        simp at h5
      · rintro ⟨-, -, -, -, h5, -⟩
        simp only [List.head?_cons, Option.some.injEq] at h5
        exact hbr h5
    · have hne : rest.dropWhile isIdChar ≠ [] := by rw [hdw]; simp
      have h1 : (rest ++ b0 :: b).dropWhile isIdChar = d :: (ds ++ b0 :: b) := by
        rw [dropWhile_append_stop hne, hdw]
        rfl
      have h2 : (rest ++ b0 :: b).takeWhile isIdChar = rest.takeWhile isIdChar :=
        takeWhile_append_stop hne
      rw [h1, h2]
      simp only [List.head?_cons]

theorem findId_cons (c : Char) (rest : List Char) :
    findId (c :: rest) = match matchIdAt (c :: rest) with
      | some tok => some tok
      | none => findId rest := rfl

/-- Scanning text extended on the right by an inert-headed suffix finds
the leftmost match of the original text first. -/
theorem findId_append (a : List Char) {b0 : Char} (b : List Char) (hb : inertChar b0 = true) :
    findId (a ++ b0 :: b) = match findId a with
      | some t => some t
      | none => findId (b0 :: b) := by
  induction a with
  | nil => simp [findId]
  | cons c cs ih =>
    have hA : matchIdAt (c :: (cs ++ b0 :: b)) = matchIdAt (c :: cs) := by
      have := matchIdAt_append (s := c :: cs) (by simp) b hb
      simpa using this
    rcases hm : matchIdAt (c :: cs) with _ | tok
    · rw [List.cons_append, findId_cons, hA, hm, findId_cons, hm]
      exact ih
    · rw [List.cons_append, findId_cons, hA, hm, findId_cons, hm]

/-- A successful match decomposes the text: the annotation is present at
the current position, its token is nonempty and drawn from the id
character class, and arbitrary text may follow the closing bracket. -/
theorem matchIdAt_some {l tok : List Char} (h : matchIdAt l = some tok) :
    tok ≠ [] ∧ (∀ c ∈ tok, isIdChar c = true) ∧
    ∃ c1 c2 post, l = '[' :: c1 :: c2 :: ':' :: (tok ++ ']' :: post)
      ∧ c1.toLower = 'i' ∧ c2.toLower = 'd' := by
  unfold matchIdAt at h
  split_ifs at h with hc
  · obtain ⟨h1, h2, h3, h4, h5, h6⟩ := hc
    injection h with h
    subst h
    rcases l with _ | ⟨a, _ | ⟨c1, _ | ⟨c2, _ | ⟨c3, rest⟩⟩⟩⟩
    · simp at h1
    · simp at h2
    · simp at h3
    · simp at h4
    · simp only [List.tail_cons, List.head?_cons, Option.map_some',
        Option.some.injEq] at h1 h2 h3 h4 h5 h6
      subst h1
      subst h4
      simp only [List.tail_cons]
      refine ⟨h6, fun c hc => List.mem_takeWhile_imp hc, c1, c2, ?_⟩
      rcases hd : rest.dropWhile isIdChar with _ | ⟨x, xs⟩
      · rw [hd] at h5; simp at h5
      · rw [hd] at h5
        simp only [List.head?_cons, Option.some.injEq] at h5
        subst h5
        refine ⟨xs, ?_, h2, h3⟩
        have hsplit := List.takeWhile_append_dropWhile isIdChar rest
        rw [hd] at hsplit
        rw [hsplit]

/-- A detected id decomposes the line: the annotation occurs somewhere in
the line (not necessarily at its end), with a nonempty token over the id
character class, matched case-insensitively. -/
theorem findId_decomp {l t : List Char} (h : findId l = some t) :
    t ≠ [] ∧ (∀ c ∈ t, isIdChar c = true) ∧
    ∃ pre c1 c2 post, l = pre ++ '[' :: c1 :: c2 :: ':' :: (t ++ ']' :: post)
      ∧ c1.toLower = 'i' ∧ c2.toLower = 'd' := by
  induction l with
  | nil => simp [findId] at h
  | cons c rest ih =>
    rw [findId_cons] at h
    rcases hm : matchIdAt (c :: rest) with _ | tok
    · rw [hm] at h
      obtain ⟨h1, h2, pre, c1, c2, post, hpre, hc1, hc2⟩ := ih h
      exact ⟨h1, h2, c :: pre, c1, c2, post, by rw [List.cons_append, ← hpre], hc1, hc2⟩
    · rw [hm] at h
      obtain rfl : tok = t := by injection h
      obtain ⟨h1, h2, c1, c2, post, hl, hc1, hc2⟩ := matchIdAt_some hm
      exact ⟨h1, h2, [], c1, c2, post, by rw [List.nil_append, ← hl], hc1, hc2⟩

theorem matchIdAt_head_ne {c : Char} (l : List Char) (hc : c ≠ '[') :
    matchIdAt (c :: l) = none := by
  unfold matchIdAt
  rw [if_neg]
  rintro ⟨h1, -⟩
  simp only [List.head?_cons, Option.some.injEq] at h1
  exact hc h1

theorem isWs_ne_bracket {c : Char} (h : isWsJs c = true) : c ≠ '[' := by
  rintro rfl
  exact absurd h (by decide)

theorem isWs_inert {c : Char} (h : isWsJs c = true) : inertChar c = true := by
  simp only [isWsJs, Bool.or_eq_true, beq_iff_eq] at h
  rcases h with (((((rfl | rfl) | rfl) | rfl) | rfl) | rfl) <;> decide

theorem findId_ws_none {w : List Char} (h : ∀ c ∈ w, isWsJs c = true) : findId w = none := by
  induction w with
  | nil => rfl
  | cons c cs ih =>
    rw [findId_cons, matchIdAt_head_ne _ (isWs_ne_bracket (h c (List.mem_cons_self c cs)))]
    exact ih (fun x hx => h x (List.mem_cons_of_mem c hx))

theorem trimEnd_decomp (l : List Char) :
    ∃ w, l = trimEnd l ++ w ∧ ∀ c ∈ w, isWsJs c = true := by
  refine ⟨(l.reverse.takeWhile isWsJs).reverse, ?_, ?_⟩
  · conv_lhs => rw [← List.reverse_reverse l, ← List.takeWhile_append_dropWhile isWsJs l.reverse]
    rw [List.reverse_append]
    rfl
  · intro c hc
    rw [List.mem_reverse] at hc
    exact List.mem_takeWhile_imp hc

theorem trimEnd_rev_eq (l : List Char) :
    (trimEnd l).reverse = l.reverse.dropWhile isWsJs := by
  unfold trimEnd
  rw [List.reverse_reverse]

theorem trimEnd_idem (l : List Char) : trimEnd (trimEnd l) = trimEnd l := by
  show ((trimEnd l).reverse.dropWhile isWsJs).reverse = trimEnd l
  rw [trimEnd_rev_eq, dropWhile_idem]
  rfl

theorem rev_dropWhile_of_trimmed {l : List Char} (h : trimEnd l = l) :
    l.reverse.dropWhile isWsJs = l.reverse := by
  have := congrArg List.reverse h
  rw [trimEnd_rev_eq] at this
  exact this

/-- Stripping the trailing annotation from a freshly stamped line (viewed
reversed) recovers exactly the trimmed prefix. -/
theorem stripRev_inject {y t : List Char} (hy : trimEnd y = y) (ht1 : t ≠ [])
    (ht2 : ∀ c ∈ t, isIdChar c = true) :
    stripTrailingIdRev (']' :: (t.reverse ++ (':' :: 'd' :: 'i' :: '[' :: ' ' :: y.reverse)))
      = some y.reverse := by
  have htr : ∀ c ∈ t.reverse, isIdChar c = true := fun c hc => ht2 c (List.mem_reverse.mp hc)
  have hdw : (t.reverse ++ (':' :: 'd' :: 'i' :: '[' :: ' ' :: y.reverse)).dropWhile isIdChar
      = ':' :: 'd' :: 'i' :: '[' :: ' ' :: y.reverse := by
    rw [List.dropWhile_append_of_pos htr]
    exact List.dropWhile_cons_of_neg (by decide)
  have htk : (t.reverse ++ (':' :: 'd' :: 'i' :: '[' :: ' ' :: y.reverse)).takeWhile isIdChar
      = t.reverse := by
    rw [List.takeWhile_append_of_pos htr, List.takeWhile_cons_of_neg (by decide), List.append_nil]
  unfold stripTrailingIdRev
  simp only [List.head?_cons, List.tail_cons]
  rw [hdw, htk]
  simp only [List.head?_cons, List.tail_cons, Option.map_some']
  rw [if_pos ⟨trivial, by simpa using ht1, trivial, by decide, by decide, trivial⟩]
  rw [List.dropWhile_cons_of_pos (by decide), rev_dropWhile_of_trimmed hy]

theorem strip_inject {y t : List Char} (hy : trimEnd y = y) (ht1 : t ≠ [])
    (ht2 : ∀ c ∈ t, isIdChar c = true) :
    stripTrailingId (y ++ (' ' :: '[' :: 'i' :: 'd' :: ':' :: (t ++ [']']))) = y := by
  unfold stripTrailingId
  have hrev : (y ++ (' ' :: '[' :: 'i' :: 'd' :: ':' :: (t ++ [']']))).reverse
      = ']' :: (t.reverse ++ (':' :: 'd' :: 'i' :: '[' :: ' ' :: y.reverse)) := by
    simp
  rw [hrev, stripRev_inject hy ht1 ht2]
  simp

/-- A successful strip decomposes the reversed line: closing bracket,
reversed token, the annotation opener, then the remaining prefix whose
whitespace head the regex absorbed. -/
theorem stripRev_some {r q : List Char} (h : stripTrailingIdRev r = some q) :
    ∃ R6 tokr ci cd, r = ']' :: (tokr ++ (':' :: cd :: ci :: '[' :: R6))
      ∧ q = R6.dropWhile isWsJs ∧ ci.toLower = 'i' ∧ cd.toLower = 'd'
      ∧ tokr ≠ [] ∧ (∀ c ∈ tokr, isIdChar c = true) := by
  rcases r with _ | ⟨b, r1⟩
  · exact absurd h (by simp [stripTrailingIdRev])
  · unfold stripTrailingIdRev at h
    simp only [List.head?_cons, List.tail_cons] at h
    split_ifs at h with hc
    obtain ⟨h1, h2, h3, h4, h5, h6⟩ := hc
    injection h with hq
    simp only [Option.some.injEq] at h1
    subst h1
    rcases hR2 : r1.dropWhile isIdChar with _ | ⟨x3, R3⟩
    · rw [hR2] at h3; simp at h3
    · rw [hR2] at h3 h4 h5 h6 hq
      simp only [List.head?_cons, Option.some.injEq] at h3
      subst h3
      rcases R3 with _ | ⟨cd, R4⟩
      · simp at h4
      · simp only [List.tail_cons, List.head?_cons, Option.map_some', Option.some.injEq] at h4
        rcases R4 with _ | ⟨ci, R5⟩
        · simp at h5
        · simp only [List.tail_cons, List.head?_cons, Option.map_some', Option.some.injEq] at h5
          rcases R5 with _ | ⟨ca, R6⟩
          · simp at h6
          · simp only [List.tail_cons, List.head?_cons, Option.some.injEq] at h6
            subst h6
            simp only [List.tail_cons] at hq
            refine ⟨R6, r1.takeWhile isIdChar, ci, cd, ?_, hq.symm, h5, h4, h2,
              fun c hc => List.mem_takeWhile_imp hc⟩
            conv_lhs => rw [← List.takeWhile_append_dropWhile isIdChar r1, hR2]

/-- Any id the scan finds in the stripped-and-trimmed line is the id the
scan finds in the original line: stripping the trailing annotation and
trailing whitespace never exposes a different first match. -/
theorem findId_strip {l t : List Char} (h : findId l = some t) :
    ∀ u, findId (trimEnd (stripTrailingId l)) = some u → u = t := by
  intro u hu
  rcases hs : stripTrailingIdRev l.reverse with _ | q
  · have hsid : stripTrailingId l = l := by unfold stripTrailingId; rw [hs]
    rw [hsid] at hu
    obtain ⟨w, hw, hws⟩ := trimEnd_decomp l
    rcases w with _ | ⟨w0, w'⟩
    · rw [List.append_nil] at hw
      rw [← hw] at hu
      rw [h] at hu
      exact (Option.some.inj hu).symm
    · have hb := isWs_inert (hws w0 (List.mem_cons_self w0 w'))
      have happ := findId_append (trimEnd l) w' hb
      rw [← hw, h, hu] at happ
      exact Option.some.inj happ.symm
  · have hsid : stripTrailingId l = q.reverse := by unfold stripTrailingId; rw [hs]
    rw [hsid] at hu
    obtain ⟨R6, tokr, ci, cd, hr, hq, hci, hcd, htokne, htokid⟩ := stripRev_some hs
    have hyq : trimEnd q.reverse = q.reverse := by
      unfold trimEnd
      rw [List.reverse_reverse]
      conv_lhs => rw [hq, dropWhile_idem, ← hq]
    rw [hyq] at hu
    have hl : l = q.reverse ++ ((R6.takeWhile isWsJs).reverse
        ++ ('[' :: ci :: cd :: ':' :: (tokr.reverse ++ [']']))) := by
      have hragain := congrArg List.reverse hr
      rw [List.reverse_reverse] at hragain
      rw [hragain]
      conv_lhs => rw [← List.takeWhile_append_dropWhile isWsJs R6, ← hq]
      simp
    rcases hwr : (R6.takeWhile isWsJs).reverse with _ | ⟨b0, wrest⟩
    · rw [hwr, List.nil_append] at hl
      have happ := findId_append q.reverse (ci :: cd :: ':' :: (tokr.reverse ++ [']']))
        (by decide : inertChar '[' = true)
      rw [← hl, h, hu] at happ
      exact Option.some.inj happ.symm
    · have hb0ws : isWsJs b0 = true := by
        have : b0 ∈ (R6.takeWhile isWsJs).reverse := by rw [hwr]; exact List.mem_cons_self b0 wrest
        exact List.mem_takeWhile_imp (List.mem_reverse.mp this)
      rw [hwr] at hl
      have happ := findId_append q.reverse
        (wrest ++ ('[' :: ci :: cd :: ':' :: (tokr.reverse ++ [']']))) (isWs_inert hb0ws)
      simp only [List.cons_append, List.append_assoc] at hl happ
      rw [← hl, h, hu] at happ
      exact Option.some.inj happ.symm

/-- The scan finds exactly the stamped token inside the suffix the
stamper appends. -/
theorem findId_suffix {t : List Char} (ht1 : t ≠ []) (ht2 : ∀ c ∈ t, isIdChar c = true) :
    findId (' ' :: '[' :: 'i' :: 'd' :: ':' :: (t ++ [']'])) = some t := by
  rw [findId_cons, matchIdAt_head_ne _ (by decide)]
  rw [findId_cons]
  have hm : matchIdAt ('[' :: 'i' :: 'd' :: ':' :: (t ++ [']'])) = some t := by
    have hdw : (t ++ [']']).dropWhile isIdChar = [']'] := by
      rw [List.dropWhile_append_of_pos ht2]
      rfl
    have htk : (t ++ [']']).takeWhile isIdChar = t := by
      rw [List.takeWhile_append_of_pos ht2, List.takeWhile_cons_of_neg (by decide),
        List.append_nil]
    unfold matchIdAt
    simp only [List.head?_cons, List.tail_cons, Option.map_some']
    rw [hdw, htk]
    rw [if_pos ⟨trivial, by decide, by decide, trivial, by simp, ht1⟩]
  rw [hm]

/-- Claim C4: stamping is idempotent.  For every line already carrying
its identifier annotation (the extractor detects an id on it), running
the stamper a second time - extract then inject, with an arbitrary fresh
generator value - returns the same line byte for byte and schedules no
buffer edit for that line. -/
theorem stamping_idempotent (g g2 l t : List Char) (h : findId l = some t) :
    stampLine g2 (stampLine g l).newLine
      = { newLine := (stampLine g l).newLine, edited := false } := by
  obtain ⟨ht1, ht2, -⟩ := findId_decomp h
  have hyt : trimEnd (trimEnd (stripTrailingId l)) = trimEnd (stripTrailingId l) :=
    trimEnd_idem _
  have hnl : (stampLine g l).newLine = trimEnd (stripTrailingId l)
      ++ (' ' :: '[' :: 'i' :: 'd' :: ':' :: (t ++ [']'])) := by
    show injectLine (extractOrGen g l) l = _
    unfold extractOrGen
    rw [h]
    rfl
  have hfind : findId (trimEnd (stripTrailingId l)
      ++ (' ' :: '[' :: 'i' :: 'd' :: ':' :: (t ++ [']']))) = some t := by
    rw [findId_append _ _ (by decide : inertChar ' ' = true)]
    rcases hv : findId (trimEnd (stripTrailingId l)) with _ | u
    · exact findId_suffix ht1 ht2
    · rw [findId_strip h u hv]
  have hstrip : stripTrailingId (trimEnd (stripTrailingId l)
      ++ (' ' :: '[' :: 'i' :: 'd' :: ':' :: (t ++ [']']))) = trimEnd (stripTrailingId l) :=
    strip_inject hyt ht1 ht2
  have hdef : ∀ (gv x : List Char), stampLine gv x
      = { newLine := injectLine (extractOrGen gv x) x,
          edited := injectLine (extractOrGen gv x) x != x } := fun _ _ => rfl
  rw [hnl, hdef]
  unfold extractOrGen
  rw [hfind]
  unfold injectLine
  rw [hstrip, hyt]
  simp


/-! ## Supporting lemmas about the push pass -/

theorem customIdToPageId_some_ne {tasks : List NotionTask} {cid pid : String}
    (h : customIdToPageId tasks cid = some pid) : cid ≠ "" := by
  unfold customIdToPageId at h
  induction tasks with
  | nil => simp at h
  | cons t ts ih =>
    rw [List.foldl_cons] at h
    by_cases hc : t.customId ≠ "" ∧ t.customId = cid
    · exact hc.2 ▸ hc.1
    · rw [if_neg hc] at h
      exact ih h

theorem classify_of_indexed {tasks : List NotionTask} {todo : SyncTodo} {pid : String}
    (h1 : customIdToPageId tasks todo.id = some pid) (h2 : pid ≠ "") :
    classifyTodo tasks todo ≠ PushClass.create := by
  unfold classifyTodo processTodo
  rw [if_neg (customIdToPageId_some_ne h1)]
  simp only [h1]
  rw [if_pos h2]
  rcases ht : notionTaskByPageId tasks pid with _ | task
  · simp
  · by_cases hu : needsUpdate task todo <;> simp [hu]

theorem processTodos_go (tasks : List NotionTask) (cOk uOk : SyncTodo → Bool) :
    ∀ (todos : List SyncTodo) (acc : List SyncTodo × List SyncTodo),
      todos.foldl
        (fun acc todo =>
          match classifyTodo tasks todo with
          | .update => if uOk todo then (acc.1, acc.2 ++ [todo]) else acc
          | .create => if cOk todo then (acc.1 ++ [todo], acc.2) else acc
          | _ => acc) acc
      = (acc.1 ++ todos.filter (fun t => classifyTodo tasks t == PushClass.create && cOk t),
         acc.2 ++ todos.filter (fun t => classifyTodo tasks t == PushClass.update && uOk t)) := by
  intro todos
  induction todos with
  | nil => intro acc; simp
  | cons t ts ih =>
    intro acc
    rw [List.foldl_cons, List.filter_cons, List.filter_cons]
    rcases hcl : classifyTodo tasks t with _ | _ | _ | _
    · simp [ih]
    · by_cases hok : cOk t <;> simp [ih, hok, List.append_assoc]
    · by_cases hok : uOk t <;> simp [ih, hok, List.append_assoc]
    · simp [ih]

theorem processTodos_eq (tasks : List NotionTask) (cOk uOk : SyncTodo → Bool)
    (todos : List SyncTodo) :
    processTodos tasks cOk uOk todos
      = (todos.filter (fun t => classifyTodo tasks t == PushClass.create && cOk t),
         todos.filter (fun t => classifyTodo tasks t == PushClass.update && uOk t)) := by
  unfold processTodos
  rw [processTodos_go]
  simp

theorem mem_classifyDeleted {α : Type} {tasks : List NotionTask}
    {cached : List (String × α)} {v : α} :
    v ∈ classifyDeleted tasks cached ↔
      ∃ p ∈ cached, jsTruthy (customIdToPageId tasks p.1) = false ∧ p.2 = v := by
  unfold classifyDeleted
  split_ifs with hc
  · constructor
    · intro hv
      obtain ⟨p, hp, hfp⟩ := List.mem_filterMap.mp hv
      by_cases hj : jsTruthy (customIdToPageId tasks p.1)
      · rw [if_pos hj] at hfp
        exact absurd hfp (by simp)
      · rw [if_neg hj] at hfp
        exact ⟨p, hp, by simpa using hj, by injection hfp⟩
    · rintro ⟨p, hp, hj, rfl⟩
      exact List.mem_filterMap.mpr ⟨p, hp, by rw [if_neg (by simp [hj])]⟩
  · have : cached = [] := by
      simpa using Nat.le_zero.mp (Nat.not_lt.mp hc)
    subst this
    simp

theorem processTodo_snd {tasks : List NotionTask} {t : SyncTodo} {c : RemoteCall String}
    (h : (processTodo tasks t).2 = some c) :
    (c = RemoteCall.createPage t ∧ classifyTodo tasks t = PushClass.create)
    ∨ ∃ pid, c = RemoteCall.updatePage pid t ∧ customIdToPageId tasks t.id = some pid
        ∧ classifyTodo tasks t = PushClass.update := by
  unfold processTodo at h
  unfold classifyTodo processTodo
  by_cases h1 : t.id = ""
  · rw [if_pos h1] at h
    simp at h
  · rw [if_neg h1] at h
    rw [if_neg h1]
    rcases hm : customIdToPageId tasks t.id with _ | pid
    · simp only [hm] at h ⊢
      injection h with h
      subst h
      exact Or.inl ⟨rfl, trivial⟩
    · simp only [hm] at h ⊢
      by_cases hp : pid = ""
      · rw [if_neg (by simp [hp])] at h
        rw [if_neg (by simp [hp])]
        simp only [Option.some.injEq] at h
        subst h
        exact Or.inl ⟨rfl, rfl⟩
      · rw [if_pos hp] at h
        rw [if_pos hp]
        rcases ht : notionTaskByPageId tasks pid with _ | task
        · simp only [ht] at h
          simp at h
        · simp only [ht] at h ⊢
          by_cases hu : needsUpdate task t
          · rw [if_pos hu] at h
            rw [if_pos hu]
            simp only [Option.some.injEq] at h
            subst h
            exact Or.inr ⟨pid, rfl, rfl, rfl⟩
          · rw [if_neg hu] at h
            simp at h

theorem jsGet_mem {α : Type} {m : List (String × α)} {k : String} {v : α}
    (h : jsGet m k = some v) : (k, v) ∈ m := by
  unfold jsGet at h
  rcases hmap : m.find? (fun p => p.1 == k) with _ | p
  · rw [hmap] at h
    simp at h
  · rw [hmap] at h
    simp only [Option.map_some', Option.some.injEq] at h
    have hp := List.mem_of_find?_eq_some hmap
    have hpk := List.find?_some hmap
    obtain ⟨p1, p2⟩ := p
    simp only [beq_iff_eq] at hpk
    simp only at h
    rw [← h, ← hpk]
    exact hp

/-! ## Claim theorems -/

/-- Claim C2: join correctness.  If the identifier of a local record is
present, with a truthy page id, in the remote-by-identifier index built
at the start of the push pass, then reconciliation never classifies that
record CREATE: its classification is not create, it never appears in the
created result list, and no create call is attempted for it, for any
cache contents and any per-call outcomes. -/
theorem join_never_creates (tasks : List NotionTask) (todos : List SyncTodo)
    (cached : List (String × String)) (cOk uOk : SyncTodo → Bool) (todo : SyncTodo)
    (pid : String) (h1 : customIdToPageId tasks todo.id = some pid) (h2 : pid ≠ "") :
    classifyTodo tasks todo ≠ PushClass.create
    ∧ todo ∉ (syncTodosWithTasks tasks todos cached cOk uOk).created
    ∧ RemoteCall.createPage todo ∉ pushCalls tasks todos cached := by
  have hcl := classify_of_indexed h1 h2
  refine ⟨hcl, ?_, ?_⟩
  · intro hmem
    have hform : (syncTodosWithTasks tasks todos cached cOk uOk).created
        = todos.filter (fun t => classifyTodo tasks t == PushClass.create && cOk t) := by
      unfold syncTodosWithTasks
      rw [processTodos_eq]
    rw [hform] at hmem
    have hsplit := List.mem_filter.mp hmem
    simp only [Bool.and_eq_true, beq_iff_eq] at hsplit
    exact hcl hsplit.2.1
  · intro hmem
    unfold pushCalls at hmem
    rcases List.mem_append.mp hmem with hmem | hmem
    · obtain ⟨t2, ht2, hsnd⟩ := List.mem_filterMap.mp hmem
      rcases processTodo_snd hsnd with ⟨hcq, hclq⟩ | ⟨pid2, hcq, -, -⟩
      · injection hcq with ht2eq
        rw [← ht2eq] at hclq
        exact hcl hclq
      · exact RemoteCall.noConfusion hcq
    · obtain ⟨v, hv, hcq⟩ := List.mem_map.mp hmem
      exact RemoteCall.noConfusion hcq

theorem join_never_creates_witness :
    (customIdToPageId [taskAbc] todoAbc.id = some "p1" ∧ "p1" ≠ "")
    ∧ (classifyTodo [taskAbc] todoAbc ≠ PushClass.create
      ∧ todoAbc ∉ (syncTodosWithTasks [taskAbc] [todoAbc] [("x", "p9")]
          (fun _ => true) (fun _ => true)).created
      ∧ RemoteCall.createPage todoAbc
          ∉ pushCalls [taskAbc] [todoAbc] [("x", "p9")]) :=
  ⟨⟨by decide, by decide⟩,
    join_never_creates [taskAbc] [todoAbc] [("x", "p9")] (fun _ => true) (fun _ => true)
      todoAbc "p1" (by decide) (by decide)⟩

/-- Claim C5: a local record whose identifier joins a remote record with
identical observable fields (text, file path, line number, type and
status) is classified NO-OP, appears in neither the created nor the
updated result list, and the pass attempts no remote mutation call for
that record - no create for it, no update or archive of its page -
provided the identifier selects a unique local record and no stale cache
entry stores the same page id. -/
theorem noop_makes_no_calls (tasks : List NotionTask) (todos : List SyncTodo)
    (cached : List (String × String)) (cOk uOk : SyncTodo → Bool)
    (todo : SyncTodo) (pid : String) (task : NotionTask)
    (h1 : customIdToPageId tasks todo.id = some pid) (h2 : pid ≠ "")
    (h3 : notionTaskByPageId tasks pid = some task)
    (heq : task.text = todo.text ∧ task.filePath = todo.filePath
      ∧ task.lineNumber = some todo.lineNumber ∧ task.type = todo.type
      ∧ task.status = todo.status)
    (huniq : ∀ t2 ∈ todos, customIdToPageId tasks t2.id = some pid → t2 = todo)
    (hcache : ∀ p ∈ cached, jsTruthy (customIdToPageId tasks p.1) = false → p.2 ≠ pid) :
    classifyTodo tasks todo = PushClass.noop
    ∧ todo ∉ (syncTodosWithTasks tasks todos cached cOk uOk).created
    ∧ todo ∉ (syncTodosWithTasks tasks todos cached cOk uOk).updated
    ∧ ∀ c ∈ pushCalls tasks todos cached,
        c ≠ RemoteCall.createPage todo
        ∧ (∀ td, c ≠ RemoteCall.updatePage pid td)
        ∧ c ≠ RemoteCall.archivePage pid := by
  obtain ⟨e1, e2, e3, e4, e5⟩ := heq
  have hnu : needsUpdate task todo = false := by
    simp [needsUpdate, e1, e2, e3, e4, e5]
  have hcl : classifyTodo tasks todo = PushClass.noop := by
    unfold classifyTodo processTodo
    rw [if_neg (customIdToPageId_some_ne h1)]
    simp only [h1]
    rw [if_pos h2]
    simp [h3, hnu]
  have hform := processTodos_eq tasks cOk uOk todos
  refine ⟨hcl, ?_, ?_, ?_⟩
  · intro hmem
    have hc : (syncTodosWithTasks tasks todos cached cOk uOk).created
        = todos.filter (fun t => classifyTodo tasks t == PushClass.create && cOk t) := by
      unfold syncTodosWithTasks
      rw [processTodos_eq]
    rw [hc] at hmem
    have hsplit := List.mem_filter.mp hmem
    simp only [Bool.and_eq_true, beq_iff_eq] at hsplit
    rw [hcl] at hsplit
    exact PushClass.noConfusion hsplit.2.1
  · intro hmem
    have hc : (syncTodosWithTasks tasks todos cached cOk uOk).updated
        = todos.filter (fun t => classifyTodo tasks t == PushClass.update && uOk t) := by
      unfold syncTodosWithTasks
      rw [processTodos_eq]
    rw [hc] at hmem
    have hsplit := List.mem_filter.mp hmem
    simp only [Bool.and_eq_true, beq_iff_eq] at hsplit
    rw [hcl] at hsplit
    exact PushClass.noConfusion hsplit.2.1
  · intro c hc
    unfold pushCalls at hc
    rcases List.mem_append.mp hc with hc | hc
    · obtain ⟨t2, ht2, hsnd⟩ := List.mem_filterMap.mp hc
      rcases processTodo_snd hsnd with ⟨hcq, hclq⟩ | ⟨pid2, hcq, hlq, hclq⟩
      · subst hcq
        refine ⟨?_, ?_, ?_⟩
        · intro he
          injection he with he2
          rw [he2] at hclq
          rw [hcl] at hclq
          exact PushClass.noConfusion hclq
        · intro td he
          exact RemoteCall.noConfusion he
        · intro he
          exact RemoteCall.noConfusion he
      · subst hcq
        refine ⟨?_, ?_, ?_⟩
        · intro he
          exact RemoteCall.noConfusion he
        · intro td he
          injection he with hpe hte
          rw [hpe] at hlq
          have := huniq t2 ht2 hlq
          rw [this] at hclq
          rw [hcl] at hclq
          exact PushClass.noConfusion hclq
        · intro he
          exact RemoteCall.noConfusion he
    · obtain ⟨v, hv, hcq⟩ := List.mem_map.mp hc
      subst hcq
      refine ⟨?_, ?_, ?_⟩
      · intro he
        exact RemoteCall.noConfusion he
      · intro td he
        exact RemoteCall.noConfusion he
      · intro he
        injection he with hvpid
        obtain ⟨p, hp, hj, hpv⟩ := mem_classifyDeleted.mp hv
        exact hcache p hp hj (hpv.trans hvpid)

theorem noop_makes_no_calls_witness :
    (customIdToPageId [taskAbc] todoAbc.id = some "p1" ∧ "p1" ≠ ""
      ∧ notionTaskByPageId [taskAbc] "p1" = some taskAbc
      ∧ (taskAbc.text = todoAbc.text ∧ taskAbc.filePath = todoAbc.filePath
        ∧ taskAbc.lineNumber = some todoAbc.lineNumber ∧ taskAbc.type = todoAbc.type
        ∧ taskAbc.status = todoAbc.status)
      ∧ (∀ t2 ∈ [todoAbc], customIdToPageId [taskAbc] t2.id = some "p1" → t2 = todoAbc)
      ∧ (∀ p ∈ [("stale", "p9")], jsTruthy (customIdToPageId [taskAbc] p.1) = false
          → p.2 ≠ "p1"))
    ∧ (classifyTodo [taskAbc] todoAbc = PushClass.noop
      ∧ todoAbc ∉ (syncTodosWithTasks [taskAbc] [todoAbc] [("stale", "p9")]
          (fun _ => true) (fun _ => true)).created
      ∧ todoAbc ∉ (syncTodosWithTasks [taskAbc] [todoAbc] [("stale", "p9")]
          (fun _ => true) (fun _ => true)).updated
      ∧ ∀ c ∈ pushCalls [taskAbc] [todoAbc] [("stale", "p9")],
          c ≠ RemoteCall.createPage todoAbc
          ∧ (∀ td, c ≠ RemoteCall.updatePage "p1" td)
          ∧ c ≠ RemoteCall.archivePage "p1") :=
  ⟨⟨by decide, by decide, by decide, by decide, by decide, by decide⟩,
    noop_makes_no_calls [taskAbc] [todoAbc] [("stale", "p9")] (fun _ => true) (fun _ => true)
      todoAbc "p1" taskAbc (by decide) (by decide) (by decide)
      (by decide) (by decide) (by decide)⟩

/-- Claim C1 (code bug): the deletion check of syncTodos tests the
cached identifier against the remote-by-identifier index (notionTodo.js
line 407), not against the current local extraction.  With an empty
remote database, a cached identifier that is still present among the
current todos - and is simultaneously classified CREATE - is classified
DELETE; conversely, with the record still present remotely under the
same identifier, a cached identifier absent from the current todos is
never classified DELETE. -/
theorem delete_ignores_local_presence :
    (syncTodos credsOk (.ok []) [todoAaa] [("aaa", "page-1")]
        (fun _ => true) (fun _ => true)).deleted = ["page-1"]
    ∧ (syncTodos credsOk (.ok []) [todoAaa] [("aaa", "page-1")]
        (fun _ => true) (fun _ => true)).created = [todoAaa]
    ∧ todoAaa.id = "aaa"
    ∧ (syncTodos credsOk (.ok [pageXyz]) [] [("xyz-999", "page-1")]
        (fun _ => true) (fun _ => true)).deleted = [] := by
  refine ⟨by decide, by decide, rfl, by decide⟩

/-- Claim C3 (code bug): fetchNotionState does return an empty snapshot
when the fetch fails instead of propagating the error, but a push pass
run against that empty snapshot treats it as nothing existing remotely:
with a non-empty cache, every cached record is classified DELETE. -/
theorem empty_snapshot_deletes_whole_cache :
    fetchNotionState credsOk (.error "network") = []
    ∧ (syncTodos credsOk (.error "network") [] [("a", "p1"), ("b", "p2")]
        (fun _ => true) (fun _ => true)).deleted = ["p1", "p2"] :=
  ⟨rfl, by decide⟩

/-- Claim C6 (code bug): the archive call made for a classified deletion
is pages.update with the archived flag - a soft delete, never a hard
delete - but its target is the value the cache stores for the
identifier, and the save path caches the whole local record
(todoSync.js line 175), not the remote key of any remote record. -/
theorem archive_target_is_cached_record :
    cacheAfterSave [todoAaa] = [("aaa", todoAaa)]
    ∧ syncPushCalls credsOk (.ok []) [] (cacheAfterSave [todoAaa])
        = [RemoteCall.archivePage todoAaa]
    ∧ (deleteTodoRequest todoAaa).archived = true :=
  ⟨by decide, by decide, rfl⟩

/-- Claim C7: pull never introduces new lines.  Every operation the pull
reconciliation emits targets the uri and line of a code todo present in
the scanned code map; applying any emitted operation preserves the
number of lines of a buffer and leaves every line other than the
targeted one unchanged. -/
theorem pull_no_new_lines (notionMap : List (String × NotionTask))
    (codeMap : List (String × CodeTodo)) (op : LocalOp)
    (h : op ∈ reconcileNotionToCode notionMap codeMap) :
    (∃ p ∈ codeMap, op.opUri = (Prod.snd p).uri ∧ op.opLine = (Prod.snd p).line)
    ∧ (∀ buf : List String, (applyLocalOp buf op).length = buf.length)
    ∧ (∀ (buf : List String) (i : Nat), i ≠ op.opLine →
        (applyLocalOp buf op)[i]? = buf[i]?) := by
  obtain ⟨p, hp, hstep⟩ := List.mem_filterMap.mp h
  rcases hg : jsGet notionMap p.1 with _ | task
  · simp only [hg] at hstep
    exact absurd hstep (by simp)
  · simp only [hg] at hstep
    unfold reconcileStep at hstep
    rcases hcg : jsGet codeMap p.1 with _ | ct
    · simp only [hcg] at hstep
      exact absurd hstep (by simp)
    · simp only [hcg] at hstep
      have hmem : (p.1, ct) ∈ codeMap := jsGet_mem hcg
      have hbase : op.opUri = ct.uri ∧ op.opLine = ct.line := by
        split_ifs at hstep with hA hT
        · injection hstep with e
          subst e
          exact ⟨rfl, rfl⟩
        · injection hstep with e
          subst e
          exact ⟨rfl, rfl⟩
      refine ⟨⟨(p.1, ct), hmem, hbase.1, hbase.2⟩, ?_, ?_⟩
      · intro buf
        rcases op with ⟨u, n, s⟩ | ⟨u, n⟩ <;> simp [applyLocalOp]
      · intro buf i hi
        rcases op with ⟨u, n, s⟩ | ⟨u, n⟩ <;>
          exact List.getElem?_set_ne (fun he => hi (he.symm)) 

theorem pull_no_new_lines_witness :
    LocalOp.clearLine codeTodoAbc.uri codeTodoAbc.line
        ∈ reconcileNotionToCode [("abc", taskArchived)] [("abc", codeTodoAbc)]
    ∧ ((∃ p ∈ [("abc", codeTodoAbc)],
          (LocalOp.clearLine codeTodoAbc.uri codeTodoAbc.line).opUri = (Prod.snd p).uri
          ∧ (LocalOp.clearLine codeTodoAbc.uri codeTodoAbc.line).opLine = (Prod.snd p).line)
      ∧ (∀ buf : List String,
          (applyLocalOp buf (LocalOp.clearLine codeTodoAbc.uri codeTodoAbc.line)).length
            = buf.length)
      ∧ (∀ (buf : List String) (i : Nat),
          i ≠ (LocalOp.clearLine codeTodoAbc.uri codeTodoAbc.line).opLine →
          (applyLocalOp buf (LocalOp.clearLine codeTodoAbc.uri codeTodoAbc.line))[i]?
            = buf[i]?)) :=
  ⟨by decide, pull_no_new_lines [("abc", taskArchived)] [("abc", codeTodoAbc)] _ (by decide)⟩

/-- Claim C8 counterexample: the deleted result list is filled when the
deletions are classified (notionTodo.js line 410) and the archive
execution loop never removes entries from it, so a record whose archive
call fails is not omitted from the deleted list. -/
theorem deleted_keeps_failed_archives : ¬ deletedOmitsFailedArchives := by
  intro hp
  have hv := hp [] [] [("a", "p1")] (fun _ => true) (fun _ => true) (fun _ => false) "p1"
    (by decide)
  exact absurd hv (by decide)

/-- Claim C8 (amended): per-record isolation holds for creates and
updates - the created and updated lists are pointwise filters of the
classified todos by per-record success, so one record failing neither
removes another record nor adds the failed one - while the deleted list
is the full list of classified deletions, independent of any per-call
outcomes. -/
theorem partial_failure_isolation {α : Type} (tasks : List NotionTask)
    (todos : List SyncTodo) (cached : List (String × α))
    (cOk uOk cOk2 uOk2 : SyncTodo → Bool) :
    (syncTodosWithTasks tasks todos cached cOk uOk).created
        = todos.filter (fun t => classifyTodo tasks t == PushClass.create && cOk t)
    ∧ (syncTodosWithTasks tasks todos cached cOk uOk).updated
        = todos.filter (fun t => classifyTodo tasks t == PushClass.update && uOk t)
    ∧ (syncTodosWithTasks tasks todos cached cOk uOk).deleted
        = (syncTodosWithTasks tasks todos cached cOk2 uOk2).deleted := by
  refine ⟨?_, ?_, rfl⟩ <;> (unfold syncTodosWithTasks; rw [processTodos_eq])

/-- Claim C9 counterexample: the extractor detects an id annotation that
is neither anchored at end of line nor written over the lowercase hex
alphabet - the id regex has no end anchor and matches case-insensitive
letters and digits. -/
theorem id_detection_not_anchored_lower_hex : ¬ idDetectionAnchoredLowerHex := by
  intro hp
  have h := hp ("// TODO: x [id:zz] tail".toList) ("zz".toList) (by decide)
  have hz := h.2 'z' (by decide)
  exact absurd hz (by decide)

/-- Claim C9 (amended): on a line, the extractor detects as the
identifier the token of the first bracketed id annotation occurring
anywhere in the line, where the annotation letters match
case-insensitively and the token is a nonempty run of letters, digits
and hyphens; nothing anchors the annotation to the end of the line. -/
theorem id_detection_first_match_anywhere (l t : List Char) (h : findId l = some t) :
    t ≠ [] ∧ (∀ c ∈ t, isIdChar c = true) ∧
    ∃ pre c1 c2 post, l = pre ++ '[' :: c1 :: c2 :: ':' :: (t ++ ']' :: post)
      ∧ c1.toLower = 'i' ∧ c2.toLower = 'd' :=
  findId_decomp h

theorem id_detection_first_match_anywhere_witness :
    findId "// TODO: x [id:zz] tail".toList = some "zz".toList
    ∧ ("zz".toList ≠ [] ∧ (∀ c ∈ "zz".toList, isIdChar c = true) ∧
      ∃ pre c1 c2 post, "// TODO: x [id:zz] tail".toList
          = pre ++ '[' :: c1 :: c2 :: ':' :: ("zz".toList ++ ']' :: post)
        ∧ c1.toLower = 'i' ∧ c2.toLower = 'd') :=
  ⟨by decide, id_detection_first_match_anywhere _ _ (by decide)⟩

set_option maxRecDepth 4096 in
/-- Claim C10 (code bug): parseTodos does cap records at a constant 50
per buffer, but the scanner of the pull path bounds the cumulative
count by 50 times the document position plus one: one single-match
buffer yields 50 records when scanned alone and 100 when an unmatched
document precedes it, each record a copy of the same first match since
the regex lacks the global flag. -/
theorem scan_bound_depends_on_position :
    maxTodos = 50
    ∧ (scanDocumentsForTodos
        [{ uri := "b", scheme := "file", text := "// TODO: one".toList }]).length = 50
    ∧ (scanDocumentsForTodos
        [{ uri := "a", scheme := "file", text := "no tags here".toList },
         { uri := "b", scheme := "file", text := "// TODO: one".toList }]).length = 100
    ∧ (parseTodos (fun _ => "g".toList) ["// TODO: one".toList]).length = 1 :=
  ⟨rfl, by decide, by decide, by decide⟩

theorem stamping_idempotent_witness :
    findId "// TODO: fix [id:abc]".toList = some "abc".toList
    ∧ stampLine "g2".toList (stampLine "g1".toList "// TODO: fix [id:abc]".toList).newLine
      = { newLine := (stampLine "g1".toList "// TODO: fix [id:abc]".toList).newLine,
          edited := false } :=
  ⟨by decide,
    stamping_idempotent "g1".toList "g2".toList "// TODO: fix [id:abc]".toList
      "abc".toList (by decide)⟩
